import Mathlib

/-!
# Canonical facts (package `yggdrasil`, file `canonical_facts.go`)

A shallow embedding of `canonical_facts.go` and proofs about it.

Modelling conventions.

* A Go `string` is a Lean `String`: the text is read as its sequence of code
  points, which is how the library routines used here read it (they test
  single characters below U+0080 or whole code points). Byte sequences that
  are not valid UTF-8 are outside the model.
* A Go `[]string` is `Option (List String)`: `none` is the nil slice, `some l`
  a non-nil slice with elements `l`.
* A Go `interface{}` value is a `Value`: its dynamic type is the constructor.
* A Go `map[string]interface{}` is an association list read with
  `List.lookup`; writing a key conses a binding in front.
* A Go result `(*T, error)` that is either `(nil, err)` or `(&v, nil)` is an
  `Except Error T`; `readFile` and `readCert`, which return `("", err)`, keep
  the pair.
-/

set_option autoImplicit false

namespace Yggdrasil

/-! ## Data model -/

/-- A Go slice of strings; `none` is the nil slice. -/
abbrev StringSlice := Option (List String)

/-- Elements of a slice (the nil slice has none). -/
def StringSlice.elems (s : StringSlice) : List String := s.getD []

/-- Go `append(s, x)` on a slice of strings. -/
def StringSlice.append (s : StringSlice) (x : String) : StringSlice :=
  some (s.elems ++ [x])

/-- A dynamically typed Go value (`interface{}`), by dynamic type. -/
inductive Value where
  /-- The nil interface value. -/
  | nil
  /-- A `bool`. -/
  | bool (b : Bool)
  /-- An `int`. -/
  | int (n : Int)
  /-- A `float64`, by its IEEE-754 bit pattern. -/
  | float64 (bits : Nat)
  /-- A `string`. -/
  | string (s : String)
  /-- A `[]string` (possibly the nil slice). -/
  | strings (l : StringSlice)
  /-- A `[]interface{}`. -/
  | slice (l : List Value)
  /-- A `map[string]interface{}`. -/
  | map (m : List (String × Value))

/-- A Go `map[string]interface{}`. -/
abbrev GoMap := List (String × Value)

/-- Go `m[k] = v`. -/
def GoMap.set (m : GoMap) (k : String) (v : Value) : GoMap := (k, v) :: m

/-- Modelled from the spec: the declaration of `InvalidValueTypeError` lies
outside `canonical_facts.go`; it carries the key name and the offending value,
which the decoder sets as the fields `key` and `val`. The other two
constructors are the Go `error` values of other origin: `errorString` is what
`fmt.Errorf` returns, `external` an error produced by the operating system or
a library, identified by its text. -/
inductive Error where
  | InvalidValueTypeError (key : String) (val : Value)
  | errorString (msg : String)
  | external (msg : String)

/-- The record of identification strings (`type CanonicalFacts struct`). The
default value of every field is Go's zero value. -/
structure CanonicalFacts where
  InsightsID : String := ""
  MachineID : String := ""
  BIOSUUID : String := ""
  SubscriptionManagerID : String := ""
  IPAddresses : StringSlice := none
  FQDN : String := ""
  MACAddresses : StringSlice := none
  deriving DecidableEq, Repr

/-! ## `CanonicalFactsFromMap` -/

/-- `CanonicalFactsFromMap` creates a `CanonicalFacts` from the key-value
pairs in a map. -/
def CanonicalFactsFromMap (m : GoMap) : Except Error CanonicalFacts := do
  let facts : CanonicalFacts := {}
  let facts ←
    match m.lookup "insights_id" with
    | some (.string s) => pure { facts with InsightsID := s }
    | some val => throw (Error.InvalidValueTypeError "insights_id" val)
    | none => pure facts
  let facts ←
    match m.lookup "machine_id" with
    | some (.string s) => pure { facts with MachineID := s }
    | some val => throw (Error.InvalidValueTypeError "machine_id" val)
    | none => pure facts
  let facts ←
    match m.lookup "bios_uuid" with
    | some (.string s) => pure { facts with BIOSUUID := s }
    | some val => throw (Error.InvalidValueTypeError "bios_uuid" val)
    | none => pure facts
  let facts ←
    match m.lookup "subscription_manager_id" with
    | some (.string s) => pure { facts with SubscriptionManagerID := s }
    | some val => throw (Error.InvalidValueTypeError "subscription_manager_id" val)
    | none => pure facts
  let facts ←
    match m.lookup "ip_addresses" with
    | some (.strings s) => pure { facts with IPAddresses := s }
    | some val => throw (Error.InvalidValueTypeError "ip_addresses" val)
    | none => pure facts
  let facts ←
    match m.lookup "fqdn" with
    | some (.string s) => pure { facts with FQDN := s }
    | some val => throw (Error.InvalidValueTypeError "fqdn" val)
    | none => pure facts
  let facts ←
    match m.lookup "mac_addresses" with
    | some (.strings s) => pure { facts with MACAddresses := s }
    | some val => throw (Error.InvalidValueTypeError "mac_addresses" val)
    | none => pure facts
  return facts

/-! ### Reading the decoder's contract -/

/-- The two shapes a recognized key may hold: a single textual value, or an
ordered sequence of textual values. -/
inductive Shape where
  | text
  | textSeq
  deriving DecidableEq, Repr

/-- The seven recognized keys, in the order the decoder visits them, each with
its expected shape. -/
def recognizedKeys : List (String × Shape) :=
  [("insights_id", .text), ("machine_id", .text), ("bios_uuid", .text),
   ("subscription_manager_id", .text), ("ip_addresses", .textSeq),
   ("fqdn", .text), ("mac_addresses", .textSeq)]

/-- Whether a value has the given shape: a `string` for `text`, a `[]string`
for `textSeq`. -/
def Value.hasShape : Value → Shape → Bool
  | .string _, .text => true
  | .strings _, .textSeq => true
  | _, _ => false

/-- The empty default of a shape, as a value. -/
def Shape.emptyValue : Shape → Value
  | .text => .string ""
  | .textSeq => .strings none

/-- The field of a record that belongs to a key, as a value of its native
type (`none` for a key that is not recognized). -/
def CanonicalFacts.field (r : CanonicalFacts) (k : String) : Option Value :=
  if k = "insights_id" then some (.string r.InsightsID)
  else if k = "machine_id" then some (.string r.MachineID)
  else if k = "bios_uuid" then some (.string r.BIOSUUID)
  else if k = "subscription_manager_id" then some (.string r.SubscriptionManagerID)
  else if k = "ip_addresses" then some (.strings r.IPAddresses)
  else if k = "fqdn" then some (.string r.FQDN)
  else if k = "mac_addresses" then some (.strings r.MACAddresses)
  else none

/-- The first recognized key, in the fixed order, whose stored value has the
wrong shape, with that value. -/
def firstMismatch (m : GoMap) : Option (String × Value) :=
  recognizedKeys.findSome? fun ks =>
    match m.lookup ks.1 with
    | some v => if v.hasShape ks.2 then none else some (ks.1, v)
    | none => none

/-- The string stored under a key, or the empty string. -/
def textAt (m : GoMap) (k : String) : String :=
  match m.lookup k with
  | some (.string s) => s
  | _ => ""

/-- The slice of strings stored under a key, or the nil slice. -/
def textSeqAt (m : GoMap) (k : String) : StringSlice :=
  match m.lookup k with
  | some (.strings l) => l
  | _ => none

/-- The record read off a map key by key. -/
def readOff (m : GoMap) : CanonicalFacts :=
  { InsightsID := textAt m "insights_id"
    MachineID := textAt m "machine_id"
    BIOSUUID := textAt m "bios_uuid"
    SubscriptionManagerID := textAt m "subscription_manager_id"
    IPAddresses := textSeqAt m "ip_addresses"
    FQDN := textAt m "fqdn"
    MACAddresses := textSeqAt m "mac_addresses" }

/-- The map that stores each field of a record under its key with its native
type. -/
def CanonicalFacts.toMap (r : CanonicalFacts) : GoMap :=
  [("insights_id", .string r.InsightsID),
   ("machine_id", .string r.MachineID),
   ("bios_uuid", .string r.BIOSUUID),
   ("subscription_manager_id", .string r.SubscriptionManagerID),
   ("ip_addresses", .strings r.IPAddresses),
   ("fqdn", .string r.FQDN),
   ("mac_addresses", .strings r.MACAddresses)]

/-! ## The host: files, certificates, interfaces, hostname -/

/-- Go `unicode.IsSpace`: the Latin-1 spaces `\t \n \v \f \r`, space, U+0085,
U+00A0, and the other code points with the Unicode White_Space property. -/
def isSpace (c : Char) : Bool :=
  let r := c.toNat
  if r ≤ 0xFF then
    r = 0x09 || r = 0x0A || r = 0x0B || r = 0x0C || r = 0x0D || r = 0x20 ||
      r = 0x85 || r = 0xA0
  else
    r = 0x1680 || (0x2000 ≤ r && r ≤ 0x200A) || r = 0x2028 || r = 0x2029 ||
      r = 0x202F || r = 0x205F || r = 0x3000

/-- Go `strings.TrimLeftFunc` on the code points of a string. -/
def TrimLeftFunc (f : Char → Bool) (s : List Char) : List Char := s.dropWhile f

/-- Go `strings.TrimRightFunc` on the code points of a string. -/
def TrimRightFunc (f : Char → Bool) (s : List Char) : List Char := s.rdropWhile f

/-- Go `strings.TrimSpace`: the string without its leading and trailing white
space, as defined by Unicode. -/
def TrimSpace (s : String) : String :=
  String.mk (TrimRightFunc isSpace (TrimLeftFunc isSpace s.data))

/-- Go `filepath.Ext` (separator `/`): the suffix beginning at the final dot
in the final element of the path, empty if there is no dot. `rev` is the part
of the path still to be scanned, last character first; `acc` what lies behind
it. -/
def Ext.scan : List Char → List Char → String
  | [], _ => ""
  | c :: rev, acc =>
    if c = '/' then ""
    else if c = '.' then String.mk (c :: acc)
    else Ext.scan rev (c :: acc)

/-- Go `filepath.Ext`. -/
def Ext (path : String) : String := Ext.scan path.data.reverse []

/-- The part of a parsed certificate that is used. -/
structure Certificate where
  /-- `cert.Subject.CommonName`. -/
  CommonName : String

/-- A bound address as seen through the `net.Addr` interface. -/
structure Addr where
  /-- Result of `Network()`. -/
  Network : String
  /-- Result of `String()`. -/
  String : String

/-- A hardware address (`net.HardwareAddr`, a slice of bytes). -/
abbrev HardwareAddr := List (Fin 256)

/-- A network interface (`net.Interface`) with what `Addrs()` returns for
it. -/
structure Interface where
  Name : String
  HardwareAddr : HardwareAddr
  Addrs : Except Error (List Addr)

/-- What the code reads from outside: the file system, the two certificate
library routines, the interface table and the hostname. `Interfaces n` is
the result of the call to `net.Interfaces()` made after `n` earlier calls. -/
structure Env where
  /-- Result of `ioutil.ReadFile`. -/
  ReadFile : String → Except Error String
  /-- Result of `pem.Decode`: the bytes of the first block, if there is one. -/
  PEMDecode : String → Option String
  /-- Result of `x509.ParseCertificate`. -/
  ParseCertificate : String → Except Error Certificate
  /-- Result of `net.Interfaces`. -/
  Interfaces : Nat → Except Error (List Interface)
  /-- Result of `os.Hostname`. -/
  Hostname : Except Error String

/-- `readFile` reads the contents of filename into a string, trims
whitespace, and returns the result. The pair is Go's `(string, error)`. -/
def readFile (env : Env) (filename : String) : String × Option Error :=
  match env.ReadFile filename with
  | .error err => ("", some err)
  | .ok data => (TrimSpace data, none)

/-- `readCert` reads the data in filename, decodes it if necessary, and
returns the certificate subject CN. -/
def readCert (env : Env) (filename : String) : String × Option Error :=
  let asn1Data : Except Error String :=
    if Ext filename = ".pem" then
      match env.ReadFile filename with
      | .error err => .error err
      | .ok data =>
        match env.PEMDecode data with
        | none => .error (.errorString ("failed to decode PEM data: " ++ filename))
        | some bytes => .ok bytes
    else
      env.ReadFile filename
  match asn1Data with
  | .error err => ("", some err)
  | .ok asn1Data =>
    match env.ParseCertificate asn1Data with
    | .error err => ("", some err)
    | .ok cert => (cert.CommonName, none)

/-! ## Addresses (Go package `net`)

The parser follows `ParseIP`, `parseIPv4`, `parseIPv6`, `dtoi` and `xtoi` of
the package. Later releases of the package also reject a decimal octet with a
leading zero; no statement below depends on such an octet.
-/

/-- An IP address (`net.IP`, a slice of bytes); the nil address is `[]`. -/
abbrev IP := List Nat

/-- Length of an IPv4 address in bytes. -/
def IPv4len : Nat := 4

/-- Length of an IPv6 address in bytes. -/
def IPv6len : Nat := 16

/-- Go `net.IPv4`: the 16-byte form of the IPv4 address `a.b.c.d`. -/
def IPv4 (a b c d : Nat) : IP := [0, 0, 0, 0, 0, 0, 0, 0, 0, 0, 0xff, 0xff, a, b, c, d]

/-- Bigger than we need, not too big to worry about overflow. -/
def big : Nat := 0xFFFFFF

/-- Loop of `dtoi`: `n` is the number read so far, `i` the characters consumed. -/
def dtoi.loop : List Char → Nat → Nat → Nat × Nat × Bool
  | [], n, i => if i = 0 then (0, 0, false) else (n, i, true)
  | c :: s, n, i =>
    if '0' ≤ c ∧ c ≤ '9' then
      let n := n * 10 + (c.toNat - '0'.toNat)
      if n ≥ big then (big, i, false) else dtoi.loop s n (i + 1)
    else if i = 0 then (0, 0, false) else (n, i, true)

/-- Decimal to integer: number, characters consumed, success. -/
def dtoi (s : List Char) : Nat × Nat × Bool := dtoi.loop s 0 0

/-- Loop of `xtoi`. -/
def xtoi.loop : List Char → Nat → Nat → Nat × Nat × Bool
  | [], n, i => if i = 0 then (0, i, false) else (n, i, true)
  | c :: s, n, i =>
    if '0' ≤ c ∧ c ≤ '9' then
      let n := n * 16 + (c.toNat - '0'.toNat)
      if n ≥ big then (0, i, false) else xtoi.loop s n (i + 1)
    else if 'a' ≤ c ∧ c ≤ 'f' then
      let n := n * 16 + (c.toNat - 'a'.toNat) + 10
      if n ≥ big then (0, i, false) else xtoi.loop s n (i + 1)
    else if 'A' ≤ c ∧ c ≤ 'F' then
      let n := n * 16 + (c.toNat - 'A'.toNat) + 10
      if n ≥ big then (0, i, false) else xtoi.loop s n (i + 1)
    else if i = 0 then (0, i, false) else (n, i, true)

/-- Hexadecimal to integer: number, characters consumed, success. -/
def xtoi (s : List Char) : Nat × Nat × Bool := xtoi.loop s 0 0

/-- Loop of `parseIPv4` over the four octets: `k` octets are still to be
read, `i` is the loop index, `p` the octets read. `none` is the return of nil
from inside the loop. -/
def parseIPv4.loop : Nat → Nat → List Char → List Nat → Option (List Char × List Nat)
  | 0, _, s, p => some (s, p)
  | k + 1, i, s, p =>
    match s with
    | [] => none
    | c :: t =>
      if i > 0 ∧ c ≠ '.' then none
      else
        let s := if i > 0 then t else s
        match dtoi s with
        | (n, c, ok) =>
          if !ok || n > 0xFF then none
          else parseIPv4.loop k (i + 1) (s.drop c) (p ++ [n])

/-- Go `net.parseIPv4`: parse `s` as a dotted-decimal IPv4 address. -/
def parseIPv4 (s : List Char) : IP :=
  match parseIPv4.loop IPv4len 0 s [] with
  | some ([], [a, b, c, d]) => IPv4 a b c d
  | _ => []

/-- State of the loop of `parseIPv6`. -/
structure V6State where
  s : List Char
  i : Nat
  ellipsis : Int
  ip : List Nat

/-- Loop of `parseIPv6`, parsing hex numbers followed by colon. `none` is the
return of nil from inside the loop, `some st` the state at loop exit. Every
pass adds at least 2 to `i`, so 8 passes reach `IPv6len`. -/
def parseIPv6.loop : Nat → V6State → Option V6State
  | 0, st => some st
  | fuel + 1, st =>
    if ¬ st.i < IPv6len then some st
    else
      match xtoi st.s with
      | (n, c, ok) =>
        if !ok || n > 0xFFFF then none
        else if c < st.s.length ∧ st.s.get? c = some '.' then
          if st.ellipsis < 0 ∧ st.i ≠ IPv6len - IPv4len then none
          else if st.i + IPv4len > IPv6len then none
          else
            let ip4 := parseIPv4 st.s
            if ip4 = [] then none
            else
              let ip := (((st.ip.set st.i (ip4.getD 12 0)).set (st.i + 1) (ip4.getD 13 0)).set
                (st.i + 2) (ip4.getD 14 0)).set (st.i + 3) (ip4.getD 15 0)
              some { s := [], i := st.i + IPv4len, ellipsis := st.ellipsis, ip := ip }
        else
          let ip := (st.ip.set st.i ((n >>> 8) % 256)).set (st.i + 1) (n % 256)
          let i := st.i + 2
          let s := st.s.drop c
          match s with
          | [] => some { s := s, i := i, ellipsis := st.ellipsis, ip := ip }
          | c0 :: s1 =>
            if c0 ≠ ':' ∨ s.length = 1 then none
            else
              match s1 with
              | ':' :: s2 =>
                if st.ellipsis ≥ 0 then none
                else
                  match s2 with
                  | [] => some { s := s2, i := i, ellipsis := i, ip := ip }
                  | _ => parseIPv6.loop fuel { s := s2, i := i, ellipsis := i, ip := ip }
              | _ => parseIPv6.loop fuel { s := s1, i := i, ellipsis := st.ellipsis, ip := ip }

/-- The part of `parseIPv6` after the leading ellipsis has been looked for:
the loop, then the expansion of the ellipsis. -/
def parseIPv6.rest (s : List Char) (ellipsis : Int) (ip : List Nat) : IP :=
  match parseIPv6.loop 8 { s := s, i := 0, ellipsis := ellipsis, ip := ip } with
  | none => []
  | some st =>
    -- Must have used entire string.
    if st.s.length ≠ 0 then []
    else if st.i < IPv6len then
      -- If didn't parse enough, expand ellipsis: the groups behind it move
      -- to the end and zeros fill the gap.
      if st.ellipsis < 0 then []
      else
        let e := st.ellipsis.toNat
        let n := IPv6len - st.i
        st.ip.take e ++ List.replicate n 0 ++ (st.ip.drop e).take (st.i - e)
    else if st.ellipsis ≥ 0 then
      -- Ellipsis must represent at least one 0 group.
      []
    else st.ip

/-- Go `net.parseIPv6`: parse `s` as a literal IPv6 address. -/
def parseIPv6 (s : List Char) : IP :=
  let ip : List Nat := List.replicate IPv6len 0
  match s with
  | ':' :: ':' :: s =>
    -- Leading ellipsis; might be only ellipsis.
    if s.length = 0 then ip else parseIPv6.rest s 0 ip
  | _ => parseIPv6.rest s (-1) ip

/-- Scan of `ParseIP` for the first dot or colon of `s`. -/
def ParseIP.scan (s : List Char) : List Char → IP
  | [] => []
  | c :: rest =>
    if c = '.' then parseIPv4 s
    else if c = ':' then parseIPv6 s
    else ParseIP.scan s rest

/-- Go `net.ParseIP`: parse `s` as an IP address, dotted decimal or IPv6;
the nil address if `s` is not a valid textual representation. -/
def ParseIP (s : String) : IP := ParseIP.scan s.data s.data

/-- Go `IP.To4`: the 4-byte form of an IPv4 address, nil if it is not one. -/
def To4 (ip : IP) : IP :=
  if ip.length = IPv4len then ip
  else if ip.length = IPv6len ∧ ip.take 10 = List.replicate 10 0 ∧
      ip.getD 10 0 = 0xff ∧ ip.getD 11 0 = 0xff then ip.drop 12
  else []

/-- Go `IP.IsLinkLocalUnicast`. -/
def IsLinkLocalUnicast (ip : IP) : Bool :=
  let ip4 := To4 ip
  if ip4 ≠ [] then ip4.getD 0 0 = 169 && ip4.getD 1 0 = 254
  else ip.length = IPv6len && ip.getD 0 0 = 0xfe && (ip.getD 1 0) &&& 0xc0 = 0x80

/-- The table `hexDigit` of package `net`. -/
def hexDigit (n : Nat) : Char := "0123456789abcdef".data.getD n '0'

/-- Loop of `HardwareAddr.String`. -/
def HardwareAddr.String.loop : Nat → List (Fin 256) → List Char → List Char
  | _, [], buf => buf
  | i, b :: a, buf =>
    let buf := if i > 0 then buf ++ [':'] else buf
    let buf := buf ++ [hexDigit (b.val >>> 4)]
    let buf := buf ++ [hexDigit (b.val &&& 0xF)]
    HardwareAddr.String.loop (i + 1) a buf

/-- Go `HardwareAddr.String`. -/
def HardwareAddr.String (a : HardwareAddr) : String :=
  if a.length = 0 then ""
  else String.mk (HardwareAddr.String.loop 0 a [])

/-! ## Collecting from the host -/

/-- Inner loop of `collectIPAddresses`, over the addresses of one interface. -/
def collectIPAddresses.addrLoop (addresses : StringSlice) : List Addr → StringSlice
  | [] => addresses
  | addr :: addrs =>
    let ip := ParseIP addr.String
    if !IsLinkLocalUnicast ip then
      collectIPAddresses.addrLoop (addresses.append addr.String) addrs
    else
      collectIPAddresses.addrLoop addresses addrs

/-- Outer loop of `collectIPAddresses`, over the interfaces. -/
def collectIPAddresses.ifaceLoop (addresses : StringSlice) :
    List Interface → Except Error StringSlice
  | [] => .ok addresses
  | iface :: ifaces =>
    match iface.Addrs with
    | .error err => .error err
    | .ok addrs =>
      collectIPAddresses.ifaceLoop (collectIPAddresses.addrLoop addresses addrs) ifaces

/-- `collectIPAddresses` iterates over network interfaces and collects IP
addresses. `interfaces` is the result of its call to `net.Interfaces()`. -/
def collectIPAddresses (interfaces : Except Error (List Interface)) :
    Except Error StringSlice :=
  let addresses : StringSlice := some []
  match interfaces with
  | .error err => .error err
  | .ok ifaces => collectIPAddresses.ifaceLoop addresses ifaces

/-- Loop of `collectMACAddresses`, over the interfaces. -/
def collectMACAddresses.loop (addresses : StringSlice) : List Interface → StringSlice
  | [] => addresses
  | iface :: ifaces =>
    let addr := HardwareAddr.String iface.HardwareAddr
    if addr.length > 0 then
      collectMACAddresses.loop (addresses.append addr) ifaces
    else
      collectMACAddresses.loop addresses ifaces

/-- `collectMACAddresses` iterates over network interfaces and collects
hardware addresses. `interfaces` is the result of its call to
`net.Interfaces()`. -/
def collectMACAddresses (interfaces : Except Error (List Interface)) :
    Except Error StringSlice :=
  let addresses : StringSlice := some []
  match interfaces with
  | .error err => .error err
  | .ok ifaces => .ok (collectMACAddresses.loop addresses ifaces)

/-- `GetCanonicalFacts` attempts to construct a `CanonicalFacts` struct by
collecting data from the localhost. -/
def GetCanonicalFacts (env : Env) : Except Error CanonicalFacts :=
  let facts : CanonicalFacts := {}
  match readFile env "/etc/insights-client/machine-id" with
  | (_, some err) => .error err
  | (v, none) =>
  let facts := { facts with InsightsID := v }
  match readFile env "/etc/machine-id" with
  | (_, some err) => .error err
  | (v, none) =>
  let facts := { facts with MachineID := v }
  match readFile env "/sys/devices/virtual/dmi/id/product_uuid" with
  | (_, some err) => .error err
  | (v, none) =>
  let facts := { facts with BIOSUUID := v }
  match readCert env "/etc/pki/consumer/cert.pem" with
  | (_, some err) => .error err
  | (v, none) =>
  let facts := { facts with SubscriptionManagerID := v }
  match collectIPAddresses (env.Interfaces 0) with
  | .error err => .error err
  | .ok v =>
  let facts := { facts with IPAddresses := v }
  match env.Hostname with
  | .error err => .error err
  | .ok v =>
  let facts := { facts with FQDN := v }
  match collectMACAddresses (env.Interfaces 1) with
  | .error err => .error err
  | .ok v =>
  let facts := { facts with MACAddresses := v }
  .ok facts

/-! ## JSON (Go package `encoding/json`) -/

/-- A JSON text, by its structure. A number carries the `float64` it
denotes. -/
inductive JSON where
  | null
  | bool (b : Bool)
  | number (bits : Nat)
  | string (s : String)
  | array (elems : List JSON)
  | object (members : List (String × JSON))

/-- Go `json.Marshal` of a `[]string`: `null` for the nil slice, else an
array of strings. -/
def marshalStrings : StringSlice → JSON
  | none => .null
  | some l => .array (l.map JSON.string)

/-- Go `json.Marshal` of a `CanonicalFacts`: an object with one member per
field, named by the field's `json` tag, in field order. -/
def Marshal (r : CanonicalFacts) : JSON :=
  .object
    [("insights_id", .string r.InsightsID),
     ("machine_id", .string r.MachineID),
     ("bios_uuid", .string r.BIOSUUID),
     ("subscription_manager_id", .string r.SubscriptionManagerID),
     ("ip_addresses", marshalStrings r.IPAddresses),
     ("fqdn", .string r.FQDN),
     ("mac_addresses", marshalStrings r.MACAddresses)]

mutual
/-- Go `json.Unmarshal` into an `interface{}`: `bool` for booleans,
`float64` for numbers, `string` for strings, `[]interface{}` for arrays,
`map[string]interface{}` for objects, nil for null. -/
def JSON.toValue : JSON → Value
  | .null => .nil
  | .bool b => .bool b
  | .number bits => .float64 bits
  | .string s => .string s
  | .array elems => .slice (JSON.toValues elems)
  | .object members => .map (JSON.toMembers members)
/-- Elements of an array, decoded in order. -/
def JSON.toValues : List JSON → List Value
  | [] => []
  | j :: js => j.toValue :: JSON.toValues js
/-- Members of an object, each stored under its name in turn, so that the
binding of a later member stands in front. -/
def JSON.toMembers : List (String × JSON) → List (String × Value)
  | [] => []
  | (k, j) :: ms => JSON.toMembers ms ++ [(k, j.toValue)]
end

/-- Go `json.Unmarshal` into a `map[string]interface{}`. -/
def Unmarshal (j : JSON) : Except Error GoMap :=
  match j with
  | .object members => .ok (JSON.toMembers members)
  | .null => .ok []
  | _ => .error (.external "json: cannot unmarshal into Go value of type map")

/-- The strings of a generic sequence whose elements all are strings. -/
def stringsOf : List Value → Option (List String)
  | [] => some []
  | .string s :: rest => (stringsOf rest).map fun ss => s :: ss
  | _ :: _ => none

/-- A generic sequence of strings retyped as a `[]string`; any other value
unchanged. -/
def Value.retyped : Value → Value
  | .slice l =>
    match stringsOf l with
    | some ss => .strings (some ss)
    | none => .slice l
  | v => v

/-- A map with every generic sequence of strings retyped as a `[]string`. -/
def GoMap.retyped (m : GoMap) : GoMap := m.map fun kv => (kv.1, kv.2.retyped)

/-! ## Reading the collectors' contracts -/

/-- The addresses bound to the interfaces of a table, in interface order and
in address-list order within each interface. -/
def boundAddrs : List Interface → List Addr
  | [] => []
  | iface :: ifaces =>
    (match iface.Addrs with
      | .ok addrs => addrs
      | .error _ => []) ++ boundAddrs ifaces

/-- Whether the code's test keeps an address: the parse of its string form is
not link-local unicast. -/
def keptByFilter (addr : Addr) : Bool := !IsLinkLocalUnicast (ParseIP addr.String)

/-- The error of a Go result, nil (`none`) on success. -/
def errOf {α : Type} : Except Error α → Option Error
  | .ok _ => none
  | .error err => some err

/-- The errors of the seven sources in the order in which `GetCanonicalFacts`
consults them: insights-id file, machine-id file, product-uuid file,
certificate common name, IP addresses, hostname, MAC addresses. -/
def sourceErrors (env : Env) : List (Option Error) :=
  [(readFile env "/etc/insights-client/machine-id").2,
   (readFile env "/etc/machine-id").2,
   (readFile env "/sys/devices/virtual/dmi/id/product_uuid").2,
   (readCert env "/etc/pki/consumer/cert.pem").2,
   errOf (collectIPAddresses (env.Interfaces 0)),
   errOf env.Hostname,
   errOf (collectMACAddresses (env.Interfaces 1))]

/-- The error of the first source that fails, in that order. -/
def firstFailure (env : Env) : Option Error := (sourceErrors env).findSome? id

/-- The record whose fields are the values the seven sources produce. -/
def collected (env : Env) : CanonicalFacts :=
  { InsightsID := (readFile env "/etc/insights-client/machine-id").1
    MachineID := (readFile env "/etc/machine-id").1
    BIOSUUID := (readFile env "/sys/devices/virtual/dmi/id/product_uuid").1
    SubscriptionManagerID := (readCert env "/etc/pki/consumer/cert.pem").1
    IPAddresses := (collectIPAddresses (env.Interfaces 0)).toOption.getD none
    FQDN := env.Hostname.toOption.getD ""
    MACAddresses := (collectMACAddresses (env.Interfaces 1)).toOption.getD none }

/-! ## A sample host -/

/-- The loopback interface of the sample host. -/
def sampleLoopback : Interface :=
  { Name := "lo"
    HardwareAddr := []
    Addrs := .ok [⟨"ip+net", "127.0.0.1/8"⟩, ⟨"ip+net", "::1/128"⟩] }

/-- The network card of the sample host. -/
def sampleEthernet : Interface :=
  { Name := "eth0"
    HardwareAddr := [0x52, 0x54, 0x00, 0xab, 0xcd, 0xef]
    Addrs := .ok [⟨"ip+net", "192.168.1.5/24"⟩, ⟨"ip+net", "fe80::5054:ff:feab:cdef/64"⟩] }

/-- A host on which every source can be read. -/
def sampleEnv : Env :=
  { ReadFile := fun filename =>
      if filename = "/etc/insights-client/machine-id" then
        .ok "0b3c1a5e-8f56-4a8e-9d61-2f4f0c6a7b11\n"
      else if filename = "/etc/machine-id" then
        .ok "4c1d7b8f3a2e4f6d9b0a5c7e1f2d3a4b\n"
      else if filename = "/sys/devices/virtual/dmi/id/product_uuid" then
        .ok "6f1e2d3c-4b5a-6978-8796-a5b4c3d2e1f0\n"
      else if filename = "/etc/pki/consumer/cert.pem" then
        .ok "-----BEGIN CERTIFICATE-----\nMIIB\n-----END CERTIFICATE-----\n"
      else .error (.external "open: no such file or directory")
    PEMDecode := fun data =>
      if data = "-----BEGIN CERTIFICATE-----\nMIIB\n-----END CERTIFICATE-----\n" then some "0\u0082"
      else none
    ParseCertificate := fun asn1Data =>
      if asn1Data = "0\u0082" then .ok { CommonName := "f2a9c1d4-7e6b-4c3a-8d5f-0b1a2c3d4e5f" }
      else .error (.external "x509: malformed certificate")
    Interfaces := fun _ => .ok [sampleLoopback, sampleEthernet]
    Hostname := .ok "host.example.com" }

/-- The record collected on the sample host. -/
def sampleFacts : CanonicalFacts :=
  { InsightsID := "0b3c1a5e-8f56-4a8e-9d61-2f4f0c6a7b11"
    MachineID := "4c1d7b8f3a2e4f6d9b0a5c7e1f2d3a4b"
    BIOSUUID := "6f1e2d3c-4b5a-6978-8796-a5b4c3d2e1f0"
    SubscriptionManagerID := "f2a9c1d4-7e6b-4c3a-8d5f-0b1a2c3d4e5f"
    IPAddresses := some ["127.0.0.1/8", "::1/128", "192.168.1.5/24", "fe80::5054:ff:feab:cdef/64"]
    FQDN := "host.example.com"
    MACAddresses := some ["52:54:00:ab:cd:ef"] }

/-- The sample host without its machine-id file. -/
def sampleEnvNoMachineID : Env :=
  { sampleEnv with
    ReadFile := fun filename =>
      if filename = "/etc/machine-id" then .error (.external "open /etc/machine-id: no such file or directory")
      else sampleEnv.ReadFile filename }

/-- An interface table as the operating system reports it, each address with
its prefix length: one link-local address and one routable address. -/
def linkLocalTable : List Interface :=
  [{ Name := "eth0"
     HardwareAddr := [0x52, 0x54, 0x00, 0xab, 0xcd, 0xef]
     Addrs := .ok [⟨"ip+net", "169.254.1.1/16"⟩, ⟨"ip+net", "192.168.1.5/24"⟩] }]

/-- The same table with every address reported as a bare IP address. -/
def linkLocalTableBare : List Interface :=
  [{ Name := "eth0"
     HardwareAddr := [0x52, 0x54, 0x00, 0xab, 0xcd, 0xef]
     Addrs := .ok [⟨"ip", "169.254.1.1"⟩, ⟨"ip", "192.168.1.5"⟩] }]

/-! ## Evaluation checks -/

example : ParseIP "169.254.1.1" = IPv4 169 254 1 1 := by decide
example : ParseIP "169.254.1.1/16" = [] := by decide
example : ParseIP "fe80::1" = [0xfe, 0x80, 0, 0, 0, 0, 0, 0, 0, 0, 0, 0, 0, 0, 0, 1] := by decide
example : ParseIP "fe80::1/64" = [] := by decide
example : ParseIP "::ffff:10.1.2.3" = IPv4 10 1 2 3 := by decide
example : ParseIP "1:2:3:4:5:6:7:8" = [0,1,0,2,0,3,0,4,0,5,0,6,0,7,0,8] := by decide
example : ParseIP "1:2:3:4:5:6:7::" = [0,1,0,2,0,3,0,4,0,5,0,6,0,7,0,0] := by decide
example : ParseIP "1:2:3:4:5:6:7:8::" = [] := by decide
example : ParseIP "::" = List.replicate 16 0 := by decide
example : ParseIP "1::2:3" = [0,1,0,0,0,0,0,0,0,0,0,0,0,2,0,3] := by decide
example : ParseIP "1.2.3" = [] := by decide
example : ParseIP "1.2.3.4.5" = [] := by decide
example : ParseIP "256.2.3.4" = [] := by decide
example : ParseIP "fe80::1%eth0" = [] := by decide
example : IsLinkLocalUnicast (ParseIP "169.254.1.1") = true := by decide
example : IsLinkLocalUnicast (ParseIP "fe80::1") = true := by decide
example : IsLinkLocalUnicast (ParseIP "febf::1") = true := by decide
example : IsLinkLocalUnicast (ParseIP "fec0::1") = false := by decide
example : IsLinkLocalUnicast (ParseIP "192.168.1.5") = false := by decide
example : IsLinkLocalUnicast [] = false := by decide
example : HardwareAddr.String [0x52, 0x54, 0x00, 0xab, 0xcd, 0xef] = "52:54:00:ab:cd:ef" := by decide
example : HardwareAddr.String [] = "" := by decide
example : Ext "/etc/pki/consumer/cert.pem" = ".pem" := by decide
example : Ext "/etc.d/cert" = "" := by decide
example : TrimSpace " \t abc d\n\n" = "abc d" := by decide
example : TrimSpace " \t \n" = "" := by decide
example : TrimSpace "\u00a0x\u2003" = "x" := by decide
example : CanonicalFactsFromMap [] = .ok {} := rfl
example : CanonicalFactsFromMap [("insights_id", .int 123)] =
    .error (.InvalidValueTypeError "insights_id" (.int 123)) := rfl
example : CanonicalFactsFromMap [("ip_addresses", .string "10.0.0.1")] =
    .error (.InvalidValueTypeError "ip_addresses" (.string "10.0.0.1")) := rfl
example : CanonicalFactsFromMap [("ip_addresses", .strings (some ["10.0.0.1"])), ("fqdn", .string "h")] =
    .ok { IPAddresses := some ["10.0.0.1"], FQDN := "h" } := rfl

/-! ## Lemmas on the decoder -/

/-- Closed form of the decoder: the error of the first mismatch, else the
record read off the map. -/
theorem fromMap_closed (m : GoMap) :
    CanonicalFactsFromMap m =
      match firstMismatch m with
      | some (k, v) => .error (.InvalidValueTypeError k v)
      | none => .ok (readOff m) := by
  unfold CanonicalFactsFromMap firstMismatch readOff textAt textSeqAt
  simp only [recognizedKeys, List.findSome?]
  generalize m.lookup "insights_id" = o1
  generalize m.lookup "machine_id" = o2
  generalize m.lookup "bios_uuid" = o3
  generalize m.lookup "subscription_manager_id" = o4
  generalize m.lookup "ip_addresses" = o5
  generalize m.lookup "fqdn" = o6
  generalize m.lookup "mac_addresses" = o7
  rcases o1 with _ | v <;> [skip; cases v] <;> try rfl
  all_goals (rcases o2 with _ | v <;> [skip; cases v] <;> try rfl)
  all_goals (rcases o3 with _ | v <;> [skip; cases v] <;> try rfl)
  all_goals (rcases o4 with _ | v <;> [skip; cases v] <;> try rfl)
  all_goals (rcases o5 with _ | v <;> [skip; cases v] <;> try rfl)
  all_goals (rcases o6 with _ | v <;> [skip; cases v] <;> try rfl)
  all_goals (rcases o7 with _ | v <;> [skip; cases v] <;> rfl)

/-- A successful `findSome?` names an index: the function answers there and
answers `none` at every earlier index. -/
theorem findSome?_index {α β : Type} (f : α → Option β) :
    ∀ (l : List α) (b : β), l.findSome? f = some b →
      ∃ i : Fin l.length, f (l.get i) = some b ∧ ∀ j : Fin l.length, j < i → f (l.get j) = none
  | [], b, h => by simp at h
  | a :: l, b, h => by
    rw [List.findSome?_cons] at h
    cases hfa : f a with
    | some c =>
      rw [hfa] at h
      refine ⟨⟨0, by simp⟩, ?_, ?_⟩
      · simpa [hfa] using h
      · intro j hj
        exact absurd hj (Nat.not_lt_zero _)
    | none =>
      rw [hfa] at h
      obtain ⟨i, hi, hlt⟩ := findSome?_index f l b h
      refine ⟨i.succ, by simpa using hi, ?_⟩
      intro j hj
      refine Fin.cases ?_ (fun j' hj' => ?_) j hj
      · intro _
        simpa using hfa
      · have : j' < i := by simpa using hj'
        simpa using hlt j' this

/-- No mismatch exactly when every recognized key that is present holds a
value of its shape. -/
theorem firstMismatch_eq_none_iff (m : GoMap) :
    firstMismatch m = none ↔
      ∀ ks ∈ recognizedKeys, ∀ v, m.lookup ks.1 = some v → v.hasShape ks.2 = true := by
  unfold firstMismatch
  rw [List.findSome?_eq_none_iff]
  constructor
  · intro h ks hks v hv
    have := h ks hks
    rw [hv] at this
    by_contra hne
    simp [hne] at this
  · intro h ks hks
    cases hl : m.lookup ks.1 with
    | none => rfl
    | some v => simp [h ks hks v hl]

/-! ## Lemmas on trimming -/

/-- The first element left by `dropWhile` does not satisfy the predicate. -/
theorem head?_dropWhile_not {α : Type} (p : α → Bool) :
    ∀ (l : List α) (x : α), (l.dropWhile p).head? = some x → p x = false
  | [], x, h => by simp at h
  | a :: l, x, h => by
    cases hpa : p a with
    | true =>
      rw [List.dropWhile_cons_of_pos hpa] at h
      exact head?_dropWhile_not p l x h
    | false =>
      rw [List.dropWhile_cons_of_neg (by simp [hpa])] at h
      simp only [List.head?_cons, Option.some.injEq] at h
      exact h ▸ hpa

/-- A list whose first element does not satisfy the predicate is left alone
by `dropWhile`. -/
theorem dropWhile_eq_self_of_head? {α : Type} (p : α → Bool) (l : List α)
    (h : ∀ x, l.head? = some x → p x = false) : l.dropWhile p = l := by
  cases l with
  | nil => rfl
  | cons a l => exact List.dropWhile_cons_of_neg (by simp [h a rfl])

/-- The first element of a non-empty prefix is the first element of the list. -/
theorem head?_eq_of_initial {α : Type} {r t : List α} (hp : r <+: t) (x : α)
    (h : r.head? = some x) : t.head? = some x := by
  obtain ⟨u, rfl⟩ := hp
  cases r with
  | nil => simp at h
  | cons a r => simpa using h

/-- A list is what `rdropWhile` keeps followed by what `rtakeWhile` takes. -/
theorem rdropWhile_append_rtakeWhile {α : Type} (p : α → Bool) (l : List α) :
    l.rdropWhile p ++ l.rtakeWhile p = l := by
  rw [List.rdropWhile, List.rtakeWhile, ← List.reverse_append,
    List.takeWhile_append_dropWhile, List.reverse_reverse]

/-- The last element left by `rdropWhile` does not satisfy the predicate. -/
theorem getLast?_rdropWhile_not {α : Type} (p : α → Bool) (l : List α) (x : α)
    (h : (l.rdropWhile p).getLast? = some x) : p x = false := by
  have hne : l.rdropWhile p ≠ [] := by
    intro hnil
    rw [hnil] at h
    simp at h
  have hlast := List.rdropWhile_last_not p l hne
  rw [List.getLast?_eq_getLast _ hne] at h
  simp only [Option.some.injEq] at h
  rw [← h]
  simpa using hlast

/-- The shape of a trimmed string: the text is white space, then the result,
then white space, and the result neither starts nor ends with white space. -/
theorem trimSpace_spec (c : String) :
    ∃ pre suf : List Char,
      c.data = pre ++ (TrimSpace c).data ++ suf ∧
      (∀ x ∈ pre, isSpace x = true) ∧ (∀ x ∈ suf, isSpace x = true) ∧
      (∀ x, (TrimSpace c).data.head? = some x → isSpace x = false) ∧
      (∀ x, (TrimSpace c).data.getLast? = some x → isSpace x = false) := by
  refine ⟨c.data.takeWhile isSpace, (c.data.dropWhile isSpace).rtakeWhile isSpace, ?_, ?_, ?_, ?_, ?_⟩
  · show c.data = List.takeWhile isSpace c.data ++
        (c.data.dropWhile isSpace).rdropWhile isSpace ++
        (c.data.dropWhile isSpace).rtakeWhile isSpace
    rw [List.append_assoc, rdropWhile_append_rtakeWhile, List.takeWhile_append_dropWhile]
  · intro x hx
    exact List.mem_takeWhile_imp hx
  · intro x hx
    exact List.mem_rtakeWhile_imp hx
  · intro x hx
    exact head?_dropWhile_not isSpace c.data x
      (head?_eq_of_initial (List.rdropWhile_prefix isSpace _) x hx)
  · intro x hx
    exact getLast?_rdropWhile_not isSpace _ x hx

/-- Trimming a trimmed string changes nothing. -/
theorem trimSpace_idem (c : String) : TrimSpace (TrimSpace c) = TrimSpace c := by
  obtain ⟨pre, suf, -, -, -, hhead, -⟩ := trimSpace_spec c
  show String.mk (((TrimSpace c).data.dropWhile isSpace).rdropWhile isSpace) = TrimSpace c
  rw [dropWhile_eq_self_of_head? isSpace _ hhead]
  show String.mk (((c.data.dropWhile isSpace).rdropWhile isSpace).rdropWhile isSpace) = _
  rw [List.rdropWhile_idempotent]
  rfl

/-- A string of white space trims to the empty string. -/
theorem trimSpace_all_space (c : String) (h : ∀ x ∈ c.data, isSpace x = true) :
    TrimSpace c = "" := by
  show String.mk ((c.data.dropWhile isSpace).rdropWhile isSpace) = ""
  rw [List.dropWhile_eq_nil_iff.2 h]
  rfl

/-! ## Lemmas on the collectors -/

/-- Elements after an append. -/
theorem elems_append (s : StringSlice) (x : String) : (s.append x).elems = s.elems ++ [x] := rfl

/-- The loop over the hardware addresses appends the non-empty string
forms. -/
theorem collectMAC_loop (ifaces : List Interface) :
    ∀ acc : StringSlice, acc ≠ none →
      collectMACAddresses.loop acc ifaces =
        some (acc.elems ++
          ((ifaces.map fun i => HardwareAddr.String i.HardwareAddr).filter
            fun a => decide (a.length > 0))) := by
  induction ifaces with
  | nil =>
    intro acc hacc
    cases acc with
    | none => exact absurd rfl hacc
    | some l => simp [collectMACAddresses.loop, StringSlice.elems]
  | cons iface ifaces ih =>
    intro acc hacc
    unfold collectMACAddresses.loop
    by_cases h : (HardwareAddr.String iface.HardwareAddr).length > 0
    · simp only [h, if_true]
      rw [ih _ (by simp [StringSlice.append])]
      simp [elems_append, List.filter_cons, h]
    · simp only [h, if_false]
      rw [ih _ hacc]
      simp [List.filter_cons, h]

/-- The loop of `HardwareAddr.String` only ever extends the buffer. -/
theorem hw_loop_length (a : List (Fin 256)) :
    ∀ (i : Nat) (buf : List Char), buf.length ≤ (HardwareAddr.String.loop i a buf).length := by
  induction a with
  | nil => intro i buf; simp [HardwareAddr.String.loop]
  | cons b a ih =>
    intro i buf
    unfold HardwareAddr.String.loop
    refine le_trans ?_ (ih _ _)
    by_cases hi : i > 0 <;> simp [hi]

/-- The string form of a hardware address is empty exactly for the empty
address. -/
theorem hw_string_length_pos (a : HardwareAddr) :
    (HardwareAddr.String a).length > 0 ↔ a ≠ [] := by
  cases a with
  | nil => simp [HardwareAddr.String]
  | cons b a =>
    simp only [HardwareAddr.String, List.length_cons, Nat.succ_ne_zero, if_false, ne_eq,
      not_false_eq_true, iff_true, reduceCtorEq]
    show 0 < (HardwareAddr.String.loop 0 (b :: a) []).length
    unfold HardwareAddr.String.loop
    refine lt_of_lt_of_le ?_ (hw_loop_length _ _ _)
    simp

/-- The loop over the addresses of one interface appends the string forms
that pass the filter. -/
theorem collectIP_addrLoop (addrs : List Addr) :
    ∀ acc : StringSlice, acc ≠ none →
      collectIPAddresses.addrLoop acc addrs =
        some (acc.elems ++ (addrs.filter keptByFilter).map fun a => a.String) := by
  induction addrs with
  | nil =>
    intro acc hacc
    cases acc with
    | none => exact absurd rfl hacc
    | some l => simp [collectIPAddresses.addrLoop, StringSlice.elems]
  | cons addr addrs ih =>
    intro acc hacc
    unfold collectIPAddresses.addrLoop
    cases h : IsLinkLocalUnicast (ParseIP addr.String) with
    | false =>
      simp only [Bool.not_false, if_true]
      rw [ih _ (by simp [StringSlice.append])]
      simp [elems_append, List.filter_cons, keptByFilter, h]
    | true =>
      simp only [Bool.not_true, Bool.false_eq_true, if_false]
      rw [ih _ hacc]
      simp [List.filter_cons, keptByFilter, h]

/-- The loop over the interfaces, when every interface reports its
addresses. -/
theorem collectIP_ifaceLoop (ifaces : List Interface)
    (hok : ∀ iface ∈ ifaces, ∃ addrs, iface.Addrs = .ok addrs) :
    ∀ acc : StringSlice, acc ≠ none →
      collectIPAddresses.ifaceLoop acc ifaces =
        .ok (some (acc.elems ++ ((boundAddrs ifaces).filter keptByFilter).map fun a => a.String)) := by
  induction ifaces with
  | nil =>
    intro acc hacc
    cases acc with
    | none => exact absurd rfl hacc
    | some l => simp [collectIPAddresses.ifaceLoop, boundAddrs, StringSlice.elems]
  | cons iface ifaces ih =>
    intro acc hacc
    obtain ⟨addrs, haddrs⟩ := hok iface (List.mem_cons_self _ _)
    unfold collectIPAddresses.ifaceLoop
    rw [haddrs]
    simp only
    rw [collectIP_addrLoop addrs acc hacc,
      ih (fun i hi => hok i (List.mem_cons_of_mem _ hi)) _ (by simp)]
    simp [boundAddrs, haddrs, StringSlice.elems]

/-- What `collectIPAddresses` computes on a table that enumerates without
error: the string forms of the bound addresses that pass the filter, in
order. -/
theorem collectIP_eq (ifaces : List Interface)
    (hok : ∀ iface ∈ ifaces, ∃ addrs, iface.Addrs = .ok addrs) :
    collectIPAddresses (.ok ifaces) =
      .ok (some (((boundAddrs ifaces).filter keptByFilter).map fun a => a.String)) := by
  unfold collectIPAddresses
  simp only
  rw [collectIP_ifaceLoop ifaces hok (some []) (by simp)]
  simp [StringSlice.elems]

/-- An address of an interface of the table is among the bound addresses. -/
theorem mem_boundAddrs (ifaces : List Interface) (iface : Interface) (addrs : List Addr)
    (addr : Addr) (hi : iface ∈ ifaces) (ha : iface.Addrs = .ok addrs) (hm : addr ∈ addrs) :
    addr ∈ boundAddrs ifaces := by
  induction ifaces with
  | nil => simp at hi
  | cons i ifaces ih =>
    simp only [boundAddrs, List.mem_append]
    rcases List.mem_cons.1 hi with h | h
    · subst h
      left
      rw [ha]
      exact hm
    · exact Or.inr (ih h)

/-! ### Strings that do not parse -/

/-- A successful `dtoi` has consumed decimal digits only. -/
theorem dtoi_loop_digits :
    ∀ (s : List Char) (n i n' i' : Nat), dtoi.loop s n i = (n', i', true) →
      i ≤ i' ∧ ∀ x ∈ s.take (i' - i), x ≠ '/'
  | [], n, i, n', i', h => by
    unfold dtoi.loop at h
    split at h
    · simp at h
    · simp only [Prod.mk.injEq, and_true] at h
      obtain ⟨-, rfl⟩ := h
      simp
  | c :: s, n, i, n', i', h => by
    unfold dtoi.loop at h
    split at h
    · rename_i hc
      simp only at h
      split at h
      · simp at h
      · obtain ⟨hle, hall⟩ := dtoi_loop_digits s _ _ _ _ h
        refine ⟨by omega, ?_⟩
        have : i' - i = (i' - (i + 1)) + 1 := by omega
        rw [this, List.take_succ_cons]
        intro x hx
        rcases List.mem_cons.1 hx with hx | hx
        · subst hx
          intro hslash
          rw [hslash] at hc
          exact absurd hc.1 (by decide)
        · exact hall x hx
    · split at h
      · simp at h
      · simp only [Prod.mk.injEq, and_true] at h
        obtain ⟨-, rfl⟩ := h
        simp

/-- A successful `xtoi` has consumed hexadecimal digits only. -/
theorem xtoi_loop_digits :
    ∀ (s : List Char) (n i n' i' : Nat), xtoi.loop s n i = (n', i', true) →
      i ≤ i' ∧ ∀ x ∈ s.take (i' - i), x ≠ '/'
  | [], n, i, n', i', h => by
    unfold xtoi.loop at h
    split at h
    · simp at h
    · simp only [Prod.mk.injEq, and_true] at h
      obtain ⟨-, rfl⟩ := h
      simp
  | c :: s, n, i, n', i', h => by
    have step : ∀ m, c ≠ '/' → xtoi.loop s m (i + 1) = (n', i', true) →
        i ≤ i' ∧ ∀ x ∈ (c :: s).take (i' - i), x ≠ '/' := by
      intro m hc hm
      obtain ⟨hle, hall⟩ := xtoi_loop_digits s _ _ _ _ hm
      refine ⟨by omega, ?_⟩
      have : i' - i = (i' - (i + 1)) + 1 := by omega
      rw [this, List.take_succ_cons]
      intro x hx
      rcases List.mem_cons.1 hx with hx | hx
      · exact hx ▸ hc
      · exact hall x hx
    unfold xtoi.loop at h
    split at h
    · rename_i hc
      simp only at h
      split at h
      · simp at h
      · exact step _ (fun hs => absurd (hs ▸ hc).1 (by decide)) h
    · split at h
      · rename_i hc
        simp only at h
        split at h
        · simp at h
        · exact step _ (fun hs => absurd (hs ▸ hc).1 (by decide)) h
      · split at h
        · rename_i hc
          simp only at h
          split at h
          · simp at h
          · exact step _ (fun hs => absurd (hs ▸ hc).1 (by decide)) h
        · split at h
          · simp at h
          · simp only [Prod.mk.injEq, and_true] at h
            obtain ⟨-, rfl⟩ := h
            simp

/-- A list without a slash in its first `c` elements nor in the rest has
none. -/
theorem no_slash_of_take_drop (s : List Char) (c : Nat)
    (h1 : ∀ x ∈ s.take c, x ≠ '/') (h2 : ∀ x ∈ s.drop c, x ≠ '/') : ∀ x ∈ s, x ≠ '/' := by
  intro x hx
  rw [← List.take_append_drop c s] at hx
  rcases List.mem_append.1 hx with h | h
  · exact h1 x h
  · exact h2 x h

/-- When the loop of `parseIPv4` ends with the whole text used, the text had
no slash. -/
theorem parseIPv4_loop_no_slash :
    ∀ (k i : Nat) (s : List Char) (p r : List Nat),
      parseIPv4.loop k i s p = some ([], r) → ∀ x ∈ s, x ≠ '/'
  | 0, i, s, p, r, h => by
    unfold parseIPv4.loop at h
    simp only [Option.some.injEq, Prod.mk.injEq] at h
    rw [h.1]
    simp
  | k + 1, i, [], p, r, h => by simp
  | k + 1, i, c :: t, p, r, h => by
    unfold parseIPv4.loop at h
    simp only at h
    split at h
    · simp at h
    · rename_i hdot
      rcases hd : dtoi (if i > 0 then t else c :: t) with ⟨n, cnt, ok⟩
      rw [hd] at h
      simp only at h
      split at h
      · simp at h
      · rename_i hok
        have hok' : ok = true := by
          cases ok
          · simp at hok
          · rfl
        subst hok'
        have hrest := parseIPv4_loop_no_slash k _ _ _ _ h
        obtain ⟨-, hdig⟩ := dtoi_loop_digits _ _ _ _ _ hd
        have hall := no_slash_of_take_drop _ cnt (by simpa using hdig) hrest
        by_cases hi : i > 0
        · simp only [hi, if_true] at hall
          have hc : c = '.' := by
            by_contra hne
            exact hdot ⟨hi, hne⟩
          intro x hx
          rcases List.mem_cons.1 hx with hx | hx
          · rw [hx, hc]
            decide
          · exact hall x hx
        · simpa only [hi, if_false] using hall

/-- A text with a slash is not a dotted-decimal address. -/
theorem parseIPv4_slash (s : List Char) (hs : '/' ∈ s) : parseIPv4 s = [] := by
  unfold parseIPv4
  split
  · rename_i a b c d heq
    exact absurd rfl (parseIPv4_loop_no_slash _ _ _ _ _ heq '/' hs)
  · rfl

/-- Eight passes are enough for the loop of `parseIPv6`: once the passes left
cover the bytes still to be filled, more fuel changes nothing. -/
theorem parseIPv6_loop_fuel (fuel : Nat) :
    ∀ (st : V6State) (extra : Nat), IPv6len ≤ st.i + 2 * fuel →
      parseIPv6.loop (fuel + extra) st = parseIPv6.loop fuel st := by
  induction fuel with
  | zero =>
    intro st extra h
    cases extra with
    | zero => rfl
    | succ e =>
      have hi : ¬ st.i < IPv6len := by omega
      rw [Nat.zero_add]
      unfold parseIPv6.loop
      simp [hi]
  | succ n ih =>
    intro st extra h
    have hn : n + 1 + extra = (n + extra) + 1 := by omega
    rw [hn]
    unfold parseIPv6.loop
    split
    · rfl
    · split
      split
      · rfl
      · split
        · repeat' split
          all_goals rfl
        · dsimp only []
          repeat' split
          all_goals first
            | rfl
            | exact ih _ _ (by first | omega | (dsimp only []; omega))

/-- When the loop of `parseIPv6` ends with the whole text used, the text had
no slash. -/
theorem parseIPv6_loop_no_slash :
    ∀ (fuel : Nat) (st st' : V6State),
      parseIPv6.loop fuel st = some st' → st'.s = [] → ∀ x ∈ st.s, x ≠ '/'
  | 0, st, st', h, hs => by
    unfold parseIPv6.loop at h
    simp only [Option.some.injEq] at h
    rw [h, hs]
    simp
  | fuel + 1, st, st', h, hs => by
    unfold parseIPv6.loop at h
    split at h
    · simp only [Option.some.injEq] at h
      rw [h, hs]
      simp
    · rcases hx : xtoi st.s with ⟨n, c, ok⟩
      rw [hx] at h
      simp only at h
      split at h
      · simp at h
      · rename_i hok
        have hok' : ok = true := by
          cases ok
          · simp at hok
          · rfl
        subst hok'
        obtain ⟨-, hdig⟩ := xtoi_loop_digits _ _ _ _ _ hx
        have hdig' : ∀ x ∈ st.s.take c, x ≠ '/' := by simpa using hdig
        split at h
        · split at h
          · simp at h
          · split at h
            · simp at h
            · split at h
              · simp at h
              · rename_i hv4
                intro x hx hslash
                exact hv4 (parseIPv4_slash st.s (hslash ▸ hx))
        · split at h
          · rename_i hdrop
            exact no_slash_of_take_drop _ c hdig' (by rw [hdrop]; simp)
          · rename_i c0 s1 hdrop
            split at h
            · simp at h
            · rename_i hcolon
              have hc0 : c0 = ':' := by
                by_contra hne
                exact hcolon (Or.inl hne)
              subst hc0
              apply no_slash_of_take_drop _ c hdig'
              rw [hdrop]
              split at h
              · rename_i s2
                split at h
                · simp at h
                · split at h
                  · rename_i hs2
                    intro x hx
                    simp only [List.mem_cons, List.not_mem_nil, or_false] at hx
                    rcases hx with hx | hx <;> (rw [hx]; decide)
                  · have hrest := parseIPv6_loop_no_slash fuel _ _ h hs
                    intro x hx
                    simp only [List.mem_cons] at hx
                    rcases hx with hx | hx | hx
                    · rw [hx]; decide
                    · rw [hx]; decide
                    · exact hrest x hx
              · have hrest := parseIPv6_loop_no_slash fuel _ _ h hs
                intro x hx
                simp only [List.mem_cons] at hx
                rcases hx with hx | hx
                · rw [hx]; decide
                · exact hrest x hx

/-- After the leading ellipsis, a text with a slash is rejected. -/
theorem parseIPv6_rest_slash (s : List Char) (e : Int) (ip : List Nat) (hs : '/' ∈ s) :
    parseIPv6.rest s e ip = [] := by
  unfold parseIPv6.rest
  split
  · rfl
  · rename_i st hloop
    split
    · rfl
    · rename_i hlen
      exfalso
      have hnil : st.s = [] := by
        by_contra hne
        exact hlen (by simpa using hne)
      exact parseIPv6_loop_no_slash _ _ _ hloop hnil _ hs rfl

/-- A text with a slash is not an IPv6 literal. -/
theorem parseIPv6_slash (s : List Char) (hs : '/' ∈ s) : parseIPv6 s = [] := by
  unfold parseIPv6
  simp only
  split
  · rename_i rest
    have hrest : '/' ∈ rest := by
      simp only [List.mem_cons] at hs
      rcases hs with h | h | h
      · exact absurd h (by decide)
      · exact absurd h (by decide)
      · exact h
    split
    · rename_i hlen
      have : rest = [] := by simpa using hlen
      rw [this] at hrest
      simp at hrest
    · exact parseIPv6_rest_slash _ _ _ hrest
  · exact parseIPv6_rest_slash _ _ _ hs

/-- A text with a slash does not parse as an IP address. -/
theorem parseIP_scan_slash (s : List Char) (hs : '/' ∈ s) :
    ∀ rest : List Char, ParseIP.scan s rest = []
  | [] => rfl
  | c :: rest => by
    unfold ParseIP.scan
    split
    · exact parseIPv4_slash s hs
    · split
      · exact parseIPv6_slash s hs
      · exact parseIP_scan_slash s hs rest

/-- A string with a slash, such as an address with a prefix-length suffix,
does not parse as an IP address. -/
theorem parseIP_slash (s : String) (hs : '/' ∈ s.data) : ParseIP s = [] :=
  parseIP_scan_slash s.data hs s.data

/-- The loop over the interfaces never returns the nil slice. -/
theorem collectIP_ifaceLoop_ne_nil (ifaces : List Interface) :
    ∀ (acc v : StringSlice), acc ≠ none →
      collectIPAddresses.ifaceLoop acc ifaces = .ok v → ∃ l, v = some l := by
  induction ifaces with
  | nil =>
    intro acc v hacc h
    simp only [collectIPAddresses.ifaceLoop, Except.ok.injEq] at h
    subst h
    exact Option.ne_none_iff_exists'.1 hacc
  | cons iface ifaces ih =>
    intro acc v hacc h
    unfold collectIPAddresses.ifaceLoop at h
    cases ha : iface.Addrs with
    | error e =>
      rw [ha] at h
      exact Except.noConfusion h
    | ok addrs =>
      rw [ha] at h
      simp only at h
      rw [collectIP_addrLoop addrs acc hacc] at h
      exact ih _ v (by simp) h

/-- A successful `collectIPAddresses` returns a non-nil slice. -/
theorem collectIP_ne_nil (interfaces : Except Error (List Interface)) (v : StringSlice)
    (h : collectIPAddresses interfaces = .ok v) : ∃ l, v = some l := by
  unfold collectIPAddresses at h
  cases interfaces with
  | error e => exact Except.noConfusion h
  | ok ifaces => exact collectIP_ifaceLoop_ne_nil ifaces (some []) v (by simp) h

/-- An array of JSON strings decodes to the generic sequence of the strings. -/
theorem toValues_map_string (l : List String) :
    JSON.toValues (l.map JSON.string) = l.map Value.string := by
  induction l with
  | nil => rfl
  | cons a l ih =>
    simp only [List.map_cons, JSON.toValues, JSON.toValue, ih]

/-- The strings of a generic sequence of strings. -/
theorem stringsOf_map_string (l : List String) : stringsOf (l.map Value.string) = some l := by
  induction l with
  | nil => rfl
  | cons a l ih => simp [stringsOf, ih]

/-- A non-nil slice of strings is marshalled and decoded to the generic
sequence of its strings. -/
theorem toValue_marshalStrings (l : List String) :
    (marshalStrings (some l)).toValue = .slice (l.map Value.string) := by
  simp only [marshalStrings, JSON.toValue, toValues_map_string]

/-- Retyping the generic sequence of some strings gives their `[]string`. -/
theorem retyped_slice_strings (l : List String) :
    (Value.slice (l.map Value.string)).retyped = .strings (some l) := by
  simp only [Value.retyped, stringsOf_map_string]

/-- A successful `collectMACAddresses` returns a non-nil slice. -/
theorem collectMAC_ne_nil (interfaces : Except Error (List Interface)) (v : StringSlice)
    (h : collectMACAddresses interfaces = .ok v) : ∃ l, v = some l := by
  unfold collectMACAddresses at h
  cases interfaces with
  | error e => exact Except.noConfusion h
  | ok ifaces =>
    simp only [Except.ok.injEq] at h
    rw [collectMAC_loop ifaces (some []) (by simp)] at h
    exact ⟨_, h.symm⟩

/-- Closed form of `GetCanonicalFacts`: the error of the first failing source,
else the record of the values produced. -/
theorem getCanonicalFacts_closed (env : Env) :
    GetCanonicalFacts env =
      match firstFailure env with
      | some err => .error err
      | none => .ok (collected env) := by
  unfold GetCanonicalFacts firstFailure sourceErrors collected
  simp only [List.findSome?, id]
  rcases h1 : readFile env "/etc/insights-client/machine-id" with ⟨v1, _ | e1⟩
  rcases h2 : readFile env "/etc/machine-id" with ⟨v2, _ | e2⟩
  rcases h3 : readFile env "/sys/devices/virtual/dmi/id/product_uuid" with ⟨v3, _ | e3⟩
  rcases h4 : readCert env "/etc/pki/consumer/cert.pem" with ⟨v4, _ | e4⟩
  rcases h5 : collectIPAddresses (env.Interfaces 0) with e5 | v5
  rotate_left
  rcases h6 : env.Hostname with e6 | v6
  rotate_left
  rcases h7 : collectMACAddresses (env.Interfaces 1) with e7 | v7
  all_goals simp [errOf, Except.toOption]

/-- The converse of `findSome?_index`: an index where the function answers,
with `none` at every earlier index, is what `findSome?` finds. -/
theorem findSome?_of_index {α β : Type} (f : α → Option β) :
    ∀ (l : List α) (i : Fin l.length) (b : β), f (l.get i) = some b →
      (∀ j : Fin l.length, j < i → f (l.get j) = none) → l.findSome? f = some b
  | [], i, _, _, _ => i.elim0
  | a :: l, i, b, hi, hlt => by
    rw [List.findSome?_cons]
    revert hi hlt
    refine Fin.cases ?_ (fun i' => ?_) i
    · intro hi _
      have : f a = some b := by simpa using hi
      rw [this]
    · intro hi hlt
      have h0 : f a = none := by simpa using hlt ⟨0, Nat.succ_pos _⟩ (Fin.succ_pos i')
      rw [h0]
      refine findSome?_of_index f l i' b (by simpa using hi) ?_
      intro j hj
      simpa using hlt j.succ (Fin.succ_lt_succ_iff.2 hj)

/-- A result without error is the success it carries. -/
theorem eq_ok_of_errOf {α : Type} (x : Except Error α) (d : α) (h : errOf x = none) :
    x = .ok (x.toOption.getD d) := by
  cases x with
  | error e => simp [errOf] at h
  | ok v => rfl

/-- A record returned by `GetCanonicalFacts` holds, field by field, what the
seven sources produced, none of which failed. -/
theorem getCanonicalFacts_ok (env : Env) (r : CanonicalFacts)
    (h : GetCanonicalFacts env = .ok r) :
    readFile env "/etc/insights-client/machine-id" = (r.InsightsID, none) ∧
    readFile env "/etc/machine-id" = (r.MachineID, none) ∧
    readFile env "/sys/devices/virtual/dmi/id/product_uuid" = (r.BIOSUUID, none) ∧
    readCert env "/etc/pki/consumer/cert.pem" = (r.SubscriptionManagerID, none) ∧
    collectIPAddresses (env.Interfaces 0) = .ok r.IPAddresses ∧
    env.Hostname = .ok r.FQDN ∧
    collectMACAddresses (env.Interfaces 1) = .ok r.MACAddresses := by
  rw [getCanonicalFacts_closed] at h
  cases hf : firstFailure env with
  | some err =>
    rw [hf] at h
    exact Except.noConfusion h
  | none =>
    rw [hf] at h
    simp only [Except.ok.injEq] at h
    subst h
    have hall : ∀ o ∈ sourceErrors env, o = none := by
      intro o ho
      have := (List.findSome?_eq_none_iff.1 hf) o ho
      simpa using this
    simp only [sourceErrors, List.mem_cons, List.mem_singleton, List.not_mem_nil, or_false,
      forall_eq_or_imp, forall_eq] at hall
    obtain ⟨h1, h2, h3, h4, h5, h6, h7⟩ := hall
    exact ⟨Prod.ext rfl h1, Prod.ext rfl h2, Prod.ext rfl h3, Prod.ext rfl h4,
      eq_ok_of_errOf _ _ h5, eq_ok_of_errOf _ _ h6, eq_ok_of_errOf _ _ h7⟩

/-! ## The decoder -/

/-- The field of the record read off a map, for a recognized key: the value
stored under the key if present and well shaped. -/
theorem readOff_field (m : GoMap) :
    ∀ ks ∈ recognizedKeys,
      (∀ v, m.lookup ks.1 = some v → v.hasShape ks.2 = true → (readOff m).field ks.1 = some v) ∧
      (m.lookup ks.1 = none → (readOff m).field ks.1 = some ks.2.emptyValue) := by
  intro ks hks
  simp only [recognizedKeys, List.mem_cons, List.mem_singleton, List.not_mem_nil, or_false] at hks
  rcases hks with h | h | h | h | h | h | h <;> subst h <;>
    refine ⟨fun v hv hs => ?_, fun hn => ?_⟩
  all_goals first
    | (cases v <;> simp [Value.hasShape] at hs <;>
        simp [CanonicalFacts.field, readOff, textAt, textSeqAt, hv])
    | (simp [CanonicalFacts.field, readOff, textAt, textSeqAt, hn, Shape.emptyValue])

/-- C1: for every map, the decoder succeeds exactly when every recognized key
that is present holds a value of its expected shape (a string for the five
scalar keys, a sequence of strings for the two address keys); on success each
field of the record is the value stored under its key when the key is present
and the empty default when it is absent; the empty map gives the all-default
record and no error. -/
theorem fromMap_contract (m : GoMap) :
    ((∃ r, CanonicalFactsFromMap m = .ok r) ↔
      ∀ ks ∈ recognizedKeys, ∀ v, m.lookup ks.1 = some v → v.hasShape ks.2 = true) ∧
    (∀ r, CanonicalFactsFromMap m = .ok r →
      ∀ ks ∈ recognizedKeys,
        (∀ v, m.lookup ks.1 = some v → r.field ks.1 = some v) ∧
        (m.lookup ks.1 = none → r.field ks.1 = some ks.2.emptyValue)) ∧
    CanonicalFactsFromMap [] =
      .ok { InsightsID := "", MachineID := "", BIOSUUID := "", SubscriptionManagerID := "",
            IPAddresses := none, FQDN := "", MACAddresses := none } := by
  have hclosed := fromMap_closed m
  refine ⟨?_, ?_, rfl⟩
  · rw [← firstMismatch_eq_none_iff]
    cases hfm : firstMismatch m with
    | none => simp [hclosed, hfm]
    | some kv => simp [hclosed, hfm]
  · intro r hr ks hks
    cases hfm : firstMismatch m with
    | some kv => simp [hclosed, hfm] at hr
    | none =>
      rw [hclosed, hfm] at hr
      simp only [Except.ok.injEq] at hr
      subst hr
      have hall := (firstMismatch_eq_none_iff m).1 hfm
      exact ⟨fun v hv => (readOff_field m ks hks).1 v hv (hall ks hks v hv),
        (readOff_field m ks hks).2⟩

/-- A map with one recognized key decodes; the key's field holds the value
and an absent key's field is empty. -/
theorem fromMap_contract_witness :
    ∃ r, CanonicalFactsFromMap [("fqdn", .string "host.example.com")] = .ok r ∧
      r.field "fqdn" = some (.string "host.example.com") ∧
      r.field "ip_addresses" = some (.strings none) := by
  have hc := fromMap_contract [("fqdn", .string "host.example.com")]
  obtain ⟨r, hr⟩ := hc.1.2 (by
    intro ks hks v hv
    simp only [recognizedKeys, List.mem_cons, List.mem_singleton, List.not_mem_nil,
      or_false] at hks
    rcases hks with h | h | h | h | h | h | h <;> subst h <;> simp [List.lookup] at hv
    subst hv
    rfl)
  exact ⟨r, hr, (hc.2.1 r hr ("fqdn", .text) (by simp [recognizedKeys])).1 _ rfl,
    (hc.2.1 r hr ("ip_addresses", .textSeq) (by simp [recognizedKeys])).2 rfl⟩

/-- C2: for every map in which some recognized key holds a value of the wrong
shape, the decoder returns no record but an `InvalidValueTypeError` whose key
is the first mismatching key in the fixed order of the recognized keys and
whose val is the value stored under that key. -/
theorem fromMap_first_mismatch (m : GoMap)
    (h : ∃ ks ∈ recognizedKeys, ∃ v, m.lookup ks.1 = some v ∧ v.hasShape ks.2 = false) :
    ∃ (i : Fin recognizedKeys.length) (v : Value),
      m.lookup (recognizedKeys.get i).1 = some v ∧
      v.hasShape (recognizedKeys.get i).2 = false ∧
      (∀ j : Fin recognizedKeys.length, j < i →
        ∀ w, m.lookup (recognizedKeys.get j).1 = some w →
          w.hasShape (recognizedKeys.get j).2 = true) ∧
      CanonicalFactsFromMap m =
        .error (.InvalidValueTypeError (recognizedKeys.get i).1 v) := by
  have hne : firstMismatch m ≠ none := by
    intro hnone
    obtain ⟨ks, hks, v, hv, hs⟩ := h
    have := (firstMismatch_eq_none_iff m).1 hnone ks hks v hv
    rw [hs] at this
    exact Bool.noConfusion this
  obtain ⟨⟨k, v⟩, hkv⟩ := Option.ne_none_iff_exists'.1 hne
  have hclosed := fromMap_closed m
  rw [hkv] at hclosed
  obtain ⟨i, hi, hlt⟩ := findSome?_index _ recognizedKeys (k, v) hkv
  have hi' : (match m.lookup (recognizedKeys.get i).1 with
      | some v => if v.hasShape (recognizedKeys.get i).2 = true then none
          else some ((recognizedKeys.get i).1, v)
      | none => none) = some (k, v) := hi
  cases hl : m.lookup (recognizedKeys.get i).1 with
  | none =>
    rw [hl] at hi'
    exact Option.noConfusion hi'
  | some w =>
    rw [hl] at hi'
    dsimp only at hi'
    cases hw : w.hasShape (recognizedKeys.get i).2 with
    | true =>
      rw [hw] at hi'
      exact Option.noConfusion hi'
    | false =>
      rw [hw] at hi'
      simp only [Bool.false_eq_true, if_false, Option.some.injEq, Prod.mk.injEq] at hi'
      obtain ⟨hk, hv⟩ := hi'
      subst hk hv
      refine ⟨i, w, hl, hw, ?_, hclosed⟩
      intro j hj u hu
      have := hlt j hj
      rw [hu] at this
      dsimp only at this
      cases hu' : u.hasShape (recognizedKeys.get j).2 with
      | true => rfl
      | false =>
        rw [hu'] at this
        exact Option.noConfusion this

/-- The two wrong-typed maps of the specification: a number under
`insights_id`, a scalar under `ip_addresses`. -/
theorem fromMap_first_mismatch_witness :
    (∃ (i : Fin recognizedKeys.length) (v : Value),
      (recognizedKeys.get i).1 = "insights_id" ∧
      CanonicalFactsFromMap [("insights_id", .int 123)] =
        .error (.InvalidValueTypeError (recognizedKeys.get i).1 v)) ∧
    (∃ (i : Fin recognizedKeys.length) (v : Value),
      (recognizedKeys.get i).1 = "ip_addresses" ∧
      CanonicalFactsFromMap [("ip_addresses", .string "10.0.0.1")] =
        .error (.InvalidValueTypeError (recognizedKeys.get i).1 v)) := by
  constructor
  · obtain ⟨i, v, -, -, -, he⟩ := fromMap_first_mismatch [("insights_id", .int 123)]
      ⟨("insights_id", .text), by simp [recognizedKeys], .int 123, rfl, rfl⟩
    have h0 : CanonicalFactsFromMap [("insights_id", .int 123)] =
        .error (.InvalidValueTypeError "insights_id" (.int 123)) := rfl
    have hk := he
    rw [h0] at hk
    injection hk with hk
    injection hk with hk _
    exact ⟨i, v, hk.symm, he⟩
  · obtain ⟨i, v, -, -, -, he⟩ := fromMap_first_mismatch [("ip_addresses", .string "10.0.0.1")]
      ⟨("ip_addresses", .textSeq), by simp [recognizedKeys], .string "10.0.0.1", rfl, rfl⟩
    have h0 : CanonicalFactsFromMap [("ip_addresses", .string "10.0.0.1")] =
        .error (.InvalidValueTypeError "ip_addresses" (.string "10.0.0.1")) := rfl
    have hk := he
    rw [h0] at hk
    injection hk with hk
    injection hk with hk _
    exact ⟨i, v, hk.symm, he⟩

/-- C4: a key that is not one of the seven recognized keys is ignored: setting
it to any value leaves the result of the decoder, record or error,
unchanged. -/
theorem fromMap_ignores_unrecognized (m : GoMap) (k : String) (v : Value)
    (hk : ∀ ks ∈ recognizedKeys, ks.1 ≠ k) :
    CanonicalFactsFromMap (m.set k v) = CanonicalFactsFromMap m := by
  have h1 : ("insights_id" == k) = false := by simpa using hk ("insights_id", .text) (by simp [recognizedKeys])
  have h2 : ("machine_id" == k) = false := by simpa using hk ("machine_id", .text) (by simp [recognizedKeys])
  have h3 : ("bios_uuid" == k) = false := by simpa using hk ("bios_uuid", .text) (by simp [recognizedKeys])
  have h4 : ("subscription_manager_id" == k) = false := by
    simpa using hk ("subscription_manager_id", .text) (by simp [recognizedKeys])
  have h5 : ("ip_addresses" == k) = false := by simpa using hk ("ip_addresses", .textSeq) (by simp [recognizedKeys])
  have h6 : ("fqdn" == k) = false := by simpa using hk ("fqdn", .text) (by simp [recognizedKeys])
  have h7 : ("mac_addresses" == k) = false := by simpa using hk ("mac_addresses", .textSeq) (by simp [recognizedKeys])
  unfold CanonicalFactsFromMap GoMap.set
  simp only [List.lookup, h1, h2, h3, h4, h5, h6, h7]

/-- The map with only an unexpected key decodes to the all-default record. -/
theorem fromMap_ignores_unrecognized_witness :
    CanonicalFactsFromMap (GoMap.set [] "unexpected_key" (.string "x")) =
      .ok { InsightsID := "", MachineID := "", BIOSUUID := "", SubscriptionManagerID := "",
            IPAddresses := none, FQDN := "", MACAddresses := none } :=
  (fromMap_ignores_unrecognized [] "unexpected_key" (.string "x") (by decide)).trans rfl

/-- C10: storing each field of a record under its key with its native type
and decoding the map gives back the record; so the decoder is onto the
records, and decoding the map of a decoded record returns that record
again. -/
theorem fromMap_toMap (r : CanonicalFacts) :
    CanonicalFactsFromMap r.toMap = .ok r ∧
    (∃ m, CanonicalFactsFromMap m = .ok r) ∧
    (∀ m, CanonicalFactsFromMap m = .ok r →
      CanonicalFactsFromMap r.toMap = CanonicalFactsFromMap m) :=
  ⟨rfl, ⟨r.toMap, rfl⟩, fun _ hm => hm ▸ rfl⟩

/-- The record of the sample host comes back from its map. -/
theorem fromMap_toMap_witness :
    CanonicalFactsFromMap sampleFacts.toMap = .ok sampleFacts ∧
    (∃ m, CanonicalFactsFromMap m = .ok sampleFacts) :=
  ⟨(fromMap_toMap sampleFacts).1, (fromMap_toMap sampleFacts).2.1⟩

/-! ## The collectors -/

/-- C8: for a readable file, `readFile` returns the content with surrounding
white space trimmed and no error: the content is white space, then the result,
then white space; the result neither starts nor ends with white space; a file
holding the result yields the same result; a file of white space yields the
empty string. For an unreadable file it returns the empty string and the read
error. -/
theorem readFile_trims (env : Env) (filename : String) :
    (∀ c, env.ReadFile filename = .ok c →
      (readFile env filename).2 = none ∧
      (∃ pre suf : List Char,
        c.data = pre ++ (readFile env filename).1.data ++ suf ∧
        (∀ x ∈ pre, isSpace x = true) ∧ (∀ x ∈ suf, isSpace x = true)) ∧
      (∀ x, (readFile env filename).1.data.head? = some x → isSpace x = false) ∧
      (∀ x, (readFile env filename).1.data.getLast? = some x → isSpace x = false) ∧
      (∀ (env' : Env) (filename' : String),
        env'.ReadFile filename' = .ok (readFile env filename).1 →
          readFile env' filename' = ((readFile env filename).1, none)) ∧
      ((∀ x ∈ c.data, isSpace x = true) → (readFile env filename).1 = "")) ∧
    (∀ err, env.ReadFile filename = .error err →
      readFile env filename = ("", some err)) := by
  constructor
  · intro c hc
    have hr : readFile env filename = (TrimSpace c, none) := by
      unfold readFile
      rw [hc]
    rw [hr]
    obtain ⟨pre, suf, hsplit, hpre, hsuf, hhead, hlast⟩ := trimSpace_spec c
    refine ⟨rfl, ⟨pre, suf, hsplit, hpre, hsuf⟩, hhead, hlast, ?_, trimSpace_all_space c⟩
    intro env' filename' h'
    unfold readFile
    rw [h']
    show (TrimSpace (TrimSpace c), none) = _
    rw [trimSpace_idem]
  · intro err he
    unfold readFile
    rw [he]

/-- On the sample host the machine-id file is read and trimmed without error,
and a missing file gives the empty string and the read error. -/
theorem readFile_trims_witness :
    (readFile sampleEnv "/etc/machine-id").2 = none ∧
    readFile sampleEnv "/etc/missing" =
      ("", some (.external "open: no such file or directory")) :=
  ⟨((readFile_trims sampleEnv "/etc/machine-id").1 "4c1d7b8f3a2e4f6d9b0a5c7e1f2d3a4b\n" rfl).1,
    (readFile_trims sampleEnv "/etc/missing").2 _ rfl⟩

/-- C6: for an interface table that enumerates without error,
`collectMACAddresses` returns the string forms of the hardware addresses of
the interfaces that have a non-empty one, one per such interface, in
enumeration order; the result holds no empty string and is as long as the
number of interfaces with a non-empty hardware address. -/
theorem collectMACAddresses_spec (ifaces : List Interface) :
    collectMACAddresses (.ok ifaces) =
      .ok (some ((ifaces.filter fun i => decide (i.HardwareAddr ≠ [])).map
        fun i => HardwareAddr.String i.HardwareAddr)) ∧
    (∀ res, collectMACAddresses (.ok ifaces) = .ok res →
      "" ∉ res.elems ∧
      res.elems.length = ifaces.countP fun i => decide (i.HardwareAddr ≠ [])) := by
  have hmain : collectMACAddresses (.ok ifaces) =
      .ok (some ((ifaces.filter fun i => decide (i.HardwareAddr ≠ [])).map
        fun i => HardwareAddr.String i.HardwareAddr)) := by
    unfold collectMACAddresses
    simp only
    rw [collectMAC_loop ifaces (some []) (by simp)]
    simp only [StringSlice.elems, Option.getD_some, List.nil_append, List.filter_map]
    congr 3
    apply List.filter_congr
    intro i _
    simp only [Function.comp]
    have := hw_string_length_pos i.HardwareAddr
    by_cases h : i.HardwareAddr = [] <;> simp_all
  refine ⟨hmain, ?_⟩
  intro res hres
  rw [hmain] at hres
  simp only [Except.ok.injEq] at hres
  subst hres
  constructor
  · simp only [StringSlice.elems, Option.getD_some, List.mem_map, List.mem_filter,
      decide_eq_true_eq, not_exists, not_and, and_imp]
    intro i _ hne hs
    have := (hw_string_length_pos i.HardwareAddr).2 hne
    rw [hs] at this
    simp at this
  · simp [StringSlice.elems, List.countP_eq_length_filter]

/-- On the sample host only the network card has a hardware address. -/
theorem collectMACAddresses_spec_witness :
    "" ∉ StringSlice.elems (some ["52:54:00:ab:cd:ef"]) ∧
    (StringSlice.elems (some ["52:54:00:ab:cd:ef"])).length =
      [sampleLoopback, sampleEthernet].countP fun i => decide (i.HardwareAddr ≠ []) :=
  (collectMACAddresses_spec [sampleLoopback, sampleEthernet]).2 (some ["52:54:00:ab:cd:ef"]) rfl

/-- C5, on the code: on an interface table reported with prefix lengths, the
link-local address `169.254.1.1` is not excluded; both strings are returned.
The same addresses reported as bare IP addresses are filtered. -/
theorem collectIP_link_local_with_prefix_kept :
    IsLinkLocalUnicast (IPv4 169 254 1 1) = true ∧
    collectIPAddresses (.ok linkLocalTable) =
      .ok (some ["169.254.1.1/16", "192.168.1.5/24"]) ∧
    collectIPAddresses (.ok linkLocalTableBare) = .ok (some ["192.168.1.5"]) :=
  ⟨by decide, rfl, rfl⟩

/-- C9: an address string that does not parse as a bare IP address is never
excluded by `collectIPAddresses`: the nil address of the failed parse is not
link-local unicast, every string with a slash (an address with its
prefix-length suffix) fails to parse, and on a table that enumerates without
error the string of every bound address that fails to parse is in the
result, which is no error. -/
theorem collectIP_keeps_unparsed :
    IsLinkLocalUnicast [] = false ∧
    (∀ s : String, '/' ∈ s.data → ParseIP s = []) ∧
    (∀ ifaces : List Interface, (∀ iface ∈ ifaces, ∃ addrs, iface.Addrs = .ok addrs) →
      ∀ (iface : Interface) (addrs : List Addr) (addr : Addr),
        iface ∈ ifaces → iface.Addrs = .ok addrs → addr ∈ addrs →
        ParseIP addr.String = [] →
          ∃ res, collectIPAddresses (.ok ifaces) = .ok (some res) ∧ addr.String ∈ res) := by
  refine ⟨by decide, parseIP_slash, ?_⟩
  intro ifaces hok iface addrs addr hi ha hm hparse
  refine ⟨_, collectIP_eq ifaces hok, ?_⟩
  refine List.mem_map.2 ⟨addr, List.mem_filter.2 ⟨mem_boundAddrs ifaces iface addrs addr hi ha hm, ?_⟩, rfl⟩
  unfold keptByFilter
  rw [hparse]
  decide

/-- The link-local address of a table reported with prefix lengths fails to
parse and stays in the result. -/
theorem collectIP_keeps_unparsed_witness :
    ParseIP "169.254.1.1/16" = [] ∧
    ∃ res, collectIPAddresses (.ok linkLocalTable) = .ok (some res) ∧
      "169.254.1.1/16" ∈ res :=
  ⟨collectIP_keeps_unparsed.2.1 "169.254.1.1/16" (by decide),
    collectIP_keeps_unparsed.2.2 linkLocalTable
      (by intro iface hi; simp only [linkLocalTable, List.mem_singleton] at hi; subst hi; exact ⟨_, rfl⟩)
      _ _ ⟨"ip+net", "169.254.1.1/16"⟩ (List.mem_singleton.2 rfl) rfl
      (List.mem_cons_self _ _) (by decide)⟩

/-- C7: `GetCanonicalFacts` is sequential and all-or-nothing over its seven
sources taken in order: the error of the first source that fails is returned
unchanged, whatever the later sources are; a record is returned exactly when
all seven sources succeed, and each of its fields is the value its source
produced; an unreadable identifier file yields an error and no record. -/
theorem getCanonicalFacts_all_or_nothing (env : Env) :
    (∀ (i : Fin (sourceErrors env).length) (err : Error),
      (sourceErrors env).get i = some err →
      (∀ j : Fin (sourceErrors env).length, j < i → (sourceErrors env).get j = none) →
        GetCanonicalFacts env = .error err) ∧
    ((∃ r, GetCanonicalFacts env = .ok r) ↔ ∀ o ∈ sourceErrors env, o = none) ∧
    (∀ r, GetCanonicalFacts env = .ok r →
      readFile env "/etc/insights-client/machine-id" = (r.InsightsID, none) ∧
      readFile env "/etc/machine-id" = (r.MachineID, none) ∧
      readFile env "/sys/devices/virtual/dmi/id/product_uuid" = (r.BIOSUUID, none) ∧
      readCert env "/etc/pki/consumer/cert.pem" = (r.SubscriptionManagerID, none) ∧
      collectIPAddresses (env.Interfaces 0) = .ok r.IPAddresses ∧
      env.Hostname = .ok r.FQDN ∧
      collectMACAddresses (env.Interfaces 1) = .ok r.MACAddresses) ∧
    (∀ filename ∈ ["/etc/insights-client/machine-id", "/etc/machine-id",
        "/sys/devices/virtual/dmi/id/product_uuid"],
      ∀ err, env.ReadFile filename = .error err →
        ∃ err', GetCanonicalFacts env = .error err') := by
  have hclosed := getCanonicalFacts_closed env
  have hiff : (∃ r, GetCanonicalFacts env = .ok r) ↔ ∀ o ∈ sourceErrors env, o = none := by
    have hnone : firstFailure env = none ↔ ∀ o ∈ sourceErrors env, o = none := by
      unfold firstFailure
      rw [List.findSome?_eq_none_iff]
      simp
    rw [← hnone]
    cases hf : firstFailure env with
    | none => simp [hclosed, hf]
    | some e => simp [hclosed, hf]
  refine ⟨?_, hiff, getCanonicalFacts_ok env, ?_⟩
  · intro i err hi hlt
    have : firstFailure env = some err :=
      findSome?_of_index id (sourceErrors env) i err hi hlt
    rw [hclosed, this]
  · intro filename hmem err herr
    have hrf : (readFile env filename).2 = some err := by
      unfold readFile
      rw [herr]
    have hin : (readFile env filename).2 ∈ sourceErrors env := by
      simp only [List.mem_cons, List.mem_singleton, List.not_mem_nil, or_false] at hmem
      rcases hmem with h | h | h <;> subst h <;> simp [sourceErrors]
    cases hres : GetCanonicalFacts env with
    | error err' => exact ⟨err', rfl⟩
    | ok r =>
      have := hiff.1 ⟨r, hres⟩ _ hin
      rw [hrf] at this
      exact Option.noConfusion this

/-- Without its machine-id file the sample host yields that file's error; with
it, the record of the sources. -/
theorem getCanonicalFacts_all_or_nothing_witness :
    GetCanonicalFacts sampleEnvNoMachineID =
      .error (.external "open /etc/machine-id: no such file or directory") ∧
    collectMACAddresses (sampleEnv.Interfaces 1) = .ok sampleFacts.MACAddresses :=
  ⟨(getCanonicalFacts_all_or_nothing sampleEnvNoMachineID).1 ⟨1, by decide⟩ _ rfl
      (by
        intro j hj
        have h0 : j = ⟨0, by decide⟩ := Fin.ext (Nat.lt_one_iff.1 hj)
        subst h0
        rfl),
    ((getCanonicalFacts_all_or_nothing sampleEnv).2.2.1 sampleFacts rfl).2.2.2.2.2.2⟩

/-! ## The trip through JSON -/

/-- C3, as stated, fails on the sample host: the record is collected, its
JSON object decodes to a map, and the decoder rejects the map at
`ip_addresses`. -/
theorem roundtrip_json_counterexample :
    GetCanonicalFacts sampleEnv = .ok sampleFacts ∧
    ∃ m, Unmarshal (Marshal sampleFacts) = .ok m ∧
      CanonicalFactsFromMap m ≠ .ok sampleFacts ∧
      CanonicalFactsFromMap m =
        .error (.InvalidValueTypeError "ip_addresses"
          (.slice [.string "127.0.0.1/8", .string "::1/128", .string "192.168.1.5/24",
            .string "fe80::5054:ff:feab:cdef/64"])) :=
  ⟨rfl, _, rfl, fun h => Except.noConfusion h, rfl⟩

/-- C3, amended: for every record that `GetCanonicalFacts` returns, the JSON
object of the record decodes to a generic map in which `ip_addresses` holds a
generic sequence, not a sequence of strings; `CanonicalFactsFromMap` applied
to that map returns no record but an `InvalidValueTypeError` for
`ip_addresses` carrying that sequence; once the generic sequences of strings
of the map are retyped as sequences of strings, it reconstructs the record
field for field. -/
theorem roundtrip_json_invalid_type (env : Env) (r : CanonicalFacts)
    (h : GetCanonicalFacts env = .ok r) :
    ∃ (m : GoMap) (l : List String),
      Unmarshal (Marshal r) = .ok m ∧
      r.IPAddresses = some l ∧
      m.lookup "ip_addresses" = some (.slice (l.map Value.string)) ∧
      CanonicalFactsFromMap m =
        .error (.InvalidValueTypeError "ip_addresses" (.slice (l.map Value.string))) ∧
      CanonicalFactsFromMap m.retyped = .ok r := by
  obtain ⟨l, hl⟩ := collectIP_ne_nil _ _ (getCanonicalFacts_ok env r h).2.2.2.2.1
  obtain ⟨l', hl'⟩ := collectMAC_ne_nil _ _ (getCanonicalFacts_ok env r h).2.2.2.2.2.2
  cases r with
  | mk i1 i2 i3 i4 ips fq macs =>
  simp only at hl hl'
  subst hl hl'
  have hm : Unmarshal (Marshal ⟨i1, i2, i3, i4, some l, fq, some l'⟩) =
      .ok [("mac_addresses", .slice (l'.map Value.string)), ("fqdn", .string fq),
        ("ip_addresses", .slice (l.map Value.string)),
        ("subscription_manager_id", .string i4), ("bios_uuid", .string i3),
        ("machine_id", .string i2), ("insights_id", .string i1)] := by
    rw [← toValue_marshalStrings, ← toValue_marshalStrings]
    rfl
  refine ⟨_, l, hm, rfl, rfl, rfl, ?_⟩
  simp only [GoMap.retyped, List.map_cons, List.map_nil, retyped_slice_strings]
  rfl

/-- The record of the sample host does not survive the trip through JSON. -/
theorem roundtrip_json_invalid_type_witness :
    GetCanonicalFacts sampleEnv = .ok sampleFacts ∧
    ∃ (m : GoMap) (l : List String),
      Unmarshal (Marshal sampleFacts) = .ok m ∧
      sampleFacts.IPAddresses = some l ∧
      m.lookup "ip_addresses" = some (.slice (l.map Value.string)) ∧
      CanonicalFactsFromMap m =
        .error (.InvalidValueTypeError "ip_addresses" (.slice (l.map Value.string))) ∧
      CanonicalFactsFromMap m.retyped = .ok sampleFacts :=
  ⟨rfl, roundtrip_json_invalid_type sampleEnv sampleFacts rfl⟩

end Yggdrasil
